import Mathlib

/-!
Shallow embedding of the document question-answering backend core:
text segmentation (DocumentService.chunk_document), the in-memory vector
store with enrichment (VertexRAGService.add_document_to_corpus), cosine
similarity and semantic search (VertexRAGService.search_documents and
VertexRAGService._cosine_similarity), the answer pipeline
(VertexRAGService.answer_question), and the document management layer
(DocumentService.process_document, get_document, list_documents,
delete_document).

Python strings are embedded as lists of characters, Python floats as exact
rationals for stored data and exact reals for similarity scores, Python
dicts (which preserve insertion order and have unique keys) as association
lists with first-match lookup and in-place update.  Fallible calls to the
external embedding and generation providers are passed in as functions
returning Except, so a raised exception is the error case.
-/

abbrev PyStr := List Char

/-- Python str.strip restricted to the left side: drop leading whitespace. -/
def lstrip (s : PyStr) : PyStr := s.dropWhile Char.isWhitespace

/-- Python str.strip restricted to the right side: drop trailing whitespace. -/
def rstrip (s : PyStr) : PyStr := (s.reverse.dropWhile Char.isWhitespace).reverse

/-- Python str.strip: drop whitespace at both ends. -/
def pyStrip (s : PyStr) : PyStr := rstrip (lstrip s)

/-- Lookup in an insertion-ordered association list, first match wins
(Python dict indexing / dict.get). -/
def dictGet {α : Type} (m : List (PyStr × α)) (k : PyStr) : Option α :=
  (m.find? (fun p => decide (p.1 = k))).map Prod.snd

/-- Update in an insertion-ordered association list: replace the value at an
existing key in place, otherwise append (Python dict assignment). -/
def dictSet {α : Type} (k : PyStr) (v : α) : List (PyStr × α) → List (PyStr × α)
  | [] => [(k, v)]
  | p :: t => if p.1 = k then (k, v) :: t else p :: dictSet k v t

/-- Deletion from an association list (Python del dict entry). -/
def dictDel {α : Type} (m : List (PyStr × α)) (k : PyStr) : List (PyStr × α) :=
  m.filter (fun p => decide (p.1 ≠ k))

/-- Schema DocumentChunk (app.models.schemas): id, content, page number,
positional index, optional embedding vector.  The free-form display metadata
mapping carried alongside in the source is not modelled. -/
structure DocumentChunk where
  id : PyStr
  content : PyStr
  page_number : Option Int
  chunk_index : Nat
  embedding : Option (List ℚ)
deriving DecidableEq

/-- Schema Document (app.models.schemas): identity and lifecycle fields used
by the store operations; the upload timestamp is an exact rational, display
fields (type, size, processed timestamp) are not modelled. -/
structure Document where
  id : PyStr
  filename : PyStr
  title : PyStr
  content : PyStr
  uploaded_at : ℚ
  chunk_count : Nat
  status : PyStr
deriving DecidableEq

/-- Schema SearchResult: transient pairing of a chunk with its owning
document and its scores. -/
structure SearchResult where
  chunk : DocumentChunk
  document : Document
  similarity : ℝ
  relevance_score : ℝ

/-- Schema CitationSource: projection of a SearchResult for attribution. -/
structure CitationSource where
  document_id : PyStr
  document_title : PyStr
  chunk_id : PyStr
  content : PyStr
  page_number : Option Int
  line_number : Option Int
  relevance_score : ℝ

/-- Schema QAResponse: wall-clock processing time is not modelled. -/
structure QAResponse where
  success : Bool
  answer : PyStr
  sources : List CitationSource
  confidence : ℝ
  session_id : PyStr
  error : Option PyStr

/-- Schema QARequest: the fields answer_question reads. -/
structure QARequest where
  question : PyStr
  max_sources : Nat

/-- Settings (app.core.config): the numeric configuration fields consumed by
the core, with their declared defaults. -/
structure Settings where
  max_file_size : Nat := 10485760
  chunk_size : Nat := 4000
  chunk_overlap : Nat := 200
  search_limit : Nat := 5
  similarity_threshold : ℚ := 0.4

/-- The settings object with every field at its declared default. -/
def defaultSettings : Settings := {}

/-- The two in-memory maps owned by VertexRAGService: self.documents and
self.chunks_by_document. -/
structure RAGStore where
  documents : List (PyStr × Document)
  chunks_by_document : List (PyStr × List DocumentChunk)
deriving DecidableEq

/-- DocumentService state: its own self.documents map plus the RAG store it
delegates to. -/
structure DocServiceState where
  docs : List (PyStr × Document)
  rag : RAGStore
deriving DecidableEq

/-- Dot product of two numeric vectors, truncating at the shorter length the
way List.zipWith does; numpy only reaches the dot product when the shape
check passes, and the embedding applies it under that same guard. -/
def dotp (a b : List ℚ) : ℚ := (List.zipWith (· * ·) a b).sum

/-- Body of VertexRAGService._cosine_similarity before its catch-all except
clause: the denominator is the product of the two euclidean norms, a zero
denominator short-circuits to 0.0 before the dot product is taken, and the
dot product of two vectors of different dimensionality raises (numpy
ValueError), modelled as the error case. -/
noncomputable def cosineCore (v1 v2 : List ℚ) : Except Unit ℝ :=
  if Real.sqrt ((dotp v1 v1 : ℚ) : ℝ) * Real.sqrt ((dotp v2 v2 : ℚ) : ℝ) = 0 then Except.ok 0
  else if v1.length = v2.length then
    Except.ok (((dotp v1 v2 : ℚ) : ℝ) /
      (Real.sqrt ((dotp v1 v1 : ℚ) : ℝ) * Real.sqrt ((dotp v2 v2 : ℚ) : ℝ)))
  else Except.error ()

/-- VertexRAGService._cosine_similarity: the whole body is wrapped in a
try/except that logs and returns 0.0 on any exception, so the method itself
is total. -/
noncomputable def cosine_similarity (v1 v2 : List ℚ) : ℝ :=
  match cosineCore v1 v2 with
  | Except.ok x => x
  | Except.error _ => 0

/-- The document_ids filter guard in search_documents: Python tests the
truthiness of the list, so an empty filter list disables filtering. -/
def skipByFilter (ids : Option (List PyStr)) (doc_id : PyStr) : Bool :=
  match ids with
  | none => false
  | some l => decide (l ≠ [] ∧ doc_id ∉ l)

/-- Inner loop of search_documents over the chunks of one document: skip
chunks whose embedding is absent or empty (Python falsiness of None and of
the empty list), score the rest, and keep those whose similarity reaches the
threshold, in chunk order. -/
noncomputable def chunkResults (qe : List ℚ) (th : ℚ) (document : Document)
    (chunks : List DocumentChunk) : List SearchResult :=
  chunks.filterMap (fun chunk =>
    match chunk.embedding with
    | none => none
    | some emb =>
      if emb = [] then none
      else if (th : ℝ) ≤ cosine_similarity qe emb then
        some { chunk := chunk, document := document,
               similarity := cosine_similarity qe emb,
               relevance_score := cosine_similarity qe emb }
      else none)

/-- Outer loop of search_documents over self.chunks_by_document: apply the
document_ids filter, look the owning document up in self.documents and skip
the entry when that lookup fails, then score the chunks. -/
noncomputable def gatherResults (qe : List ℚ) (th : ℚ) (ids : Option (List PyStr))
    (store : RAGStore) : List SearchResult :=
  (store.chunks_by_document.map (fun p =>
    if skipByFilter ids p.1 then []
    else
      match dictGet store.documents p.1 with
      | none => []
      | some document => chunkResults qe th document p.2)).flatten

/-- Stable insertion step for a descending sort: the new element goes after
every element that compares at least as large. -/
def insertGe {α : Type} (le : α → α → Bool) (x : α) : List α → List α
  | [] => [x]
  | h :: t => if le x h then h :: insertGe le x t else x :: h :: t

/-- Stable descending sort by a boolean comparison, modelling Python
list.sort with reverse=True. -/
def sortGe {α : Type} (le : α → α → Bool) (l : List α) : List α :=
  l.foldr (insertGe le) []

/-- Comparison on search results by similarity score. -/
noncomputable def simLe (a b : SearchResult) : Bool := decide (a.similarity ≤ b.similarity)

/-- VertexRAGService.search_documents: resolve the effective threshold (the
configured similarity_threshold when the caller passes None), embed the
query (a failure becomes a SearchError), score and filter all stored chunks,
sort descending by similarity and truncate to the limit. -/
noncomputable def search_documents (embed : PyStr → Except PyStr (List ℚ))
    (settings : Settings) (query : PyStr) (limit : Nat) (threshold : Option ℚ)
    (document_ids : Option (List PyStr)) (store : RAGStore) :
    Except PyStr (List SearchResult) :=
  let th := threshold.getD settings.similarity_threshold
  match embed query with
  | Except.error e => Except.error ("Search failed: ".toList ++ e)
  | Except.ok qe =>
      Except.ok ((sortGe simLe (gatherResults qe th document_ids store)).take limit)

/-- Per-chunk enrichment step of add_document_to_corpus: generate the
embedding and store it on the chunk; when embedding generation raises, the
chunk is dropped (the loop logs and continues).  The display metadata the
source also writes is not modelled. -/
def enrichChunk (embedFn : PyStr → Except PyStr (List ℚ)) (c : DocumentChunk) :
    Option DocumentChunk :=
  match embedFn c.content with
  | Except.ok emb => some { c with embedding := some emb }
  | Except.error _ => none

/-- VertexRAGService.add_document_to_corpus: register the document in
self.documents, enrich the chunks (dropping any whose embedding generation
fails), replace the chunk list for this document id, and return True. -/
def add_document_to_corpus (embedFn : PyStr → Except PyStr (List ℚ))
    (document : Document) (chunks : List DocumentChunk) (store : RAGStore) :
    Bool × RAGStore :=
  let store1 : RAGStore := { store with documents := dictSet document.id document store.documents }
  let enriched := chunks.filterMap (enrichChunk embedFn)
  (true, { store1 with chunks_by_document := dictSet document.id enriched store1.chunks_by_document })

/-- Response shapes tolerated by the answer text extraction in
answer_question: an object with a text attribute, a candidates list whose
parts carry the text, or anything else. -/
inductive GenResponse where
  | textResp (t : PyStr)
  | candidatesResp (parts : List PyStr)
  | otherResp

/-- The answer text extraction chain of answer_question. -/
def extractAnswerText : GenResponse → Option PyStr
  | GenResponse.textResp t => some t
  | GenResponse.candidatesResp parts =>
      match parts with
      | [] => none
      | p :: _ => some p
  | GenResponse.otherResp => none

/-- Fixed fallback phrase substituted when no answer text is extractable. -/
def fallbackAnswer : PyStr := "No se pudo generar una respuesta.".toList

/-- The apologetic localized answer returned on any internal failure of
answer_question. -/
def apologyAnswer : PyStr :=
  "Lo siento, ocurrió un error al procesar tu pregunta. Por favor intenta nuevamente.".toList

/-- Rendering of an optional page number inside the grounding prompt. -/
def pageStr : Option Int → PyStr
  | none => "None".toList
  | some n => if n < 0 then '-' :: Nat.toDigits 10 n.natAbs else Nat.toDigits 10 n.natAbs

/-- One source block of the grounding prompt: rank, document title, page
number and chunk content. -/
def sourceBlock (i : Nat) (r : SearchResult) : PyStr :=
  "Source ".toList ++ Nat.toDigits 10 (i + 1) ++ " (".toList ++ r.document.title
    ++ ", página ".toList ++ pageStr r.chunk.page_number ++ "):\n".toList ++ r.chunk.content

/-- Join a list of strings with a separator (str.join). -/
def joinWith (sep : PyStr) : List PyStr → PyStr
  | [] => []
  | [s] => s
  | s :: s2 :: rest => s ++ sep ++ joinWith sep (s2 :: rest)

/-- Leading boilerplate of the grounding prompt. -/
def promptHeader : PyStr :=
  "Eres un asistente especializado en análisis de documentos y CVs.\nDebes responder de manera clara, concisa y profesional.\n\nCONTEXTO DEL DOCUMENTO:\n".toList

/-- Boilerplate between the context block and the user question. -/
def promptMiddle : PyStr := "\n\nPREGUNTA DEL USUARIO: ".toList

/-- Trailing formatting instructions of the grounding prompt, abbreviated to
a fixed constant; no claim inspects the instruction text. -/
def promptSuffix : PyStr :=
  "\n\nINSTRUCCIONES ESPECÍFICAS Y FORMATO DE RESPUESTA\n\nRESPUESTA:".toList

/-- The grounding prompt assembled by answer_question: per-source blocks in
rank order joined by blank lines, then the literal question. -/
def buildPrompt (question : PyStr) (results : List SearchResult) : PyStr :=
  promptHeader ++ joinWith "\n\n".toList (results.enum.map (fun p => sourceBlock p.1 p.2))
    ++ promptMiddle ++ question ++ promptSuffix

/-- Citation construction in answer_question; the chunk metadata mapping is
not modelled, so the metadata line_number lookup yields none. -/
def mkCitation (r : SearchResult) : CitationSource :=
  { document_id := r.document.id, document_title := r.document.title,
    chunk_id := r.chunk.id, content := r.chunk.content,
    page_number := r.chunk.page_number, line_number := none,
    relevance_score := r.relevance_score }

/-- The QAResponse produced by the except clause of answer_question. -/
noncomputable def mkFailureResponse (e : PyStr) (session_id : Option PyStr) : QAResponse :=
  { success := false, answer := apologyAnswer, sources := [], confidence := 0,
    session_id := session_id.getD "default".toList, error := some e }

/-- VertexRAGService.answer_question: search with the configured threshold,
build citations and the grounding prompt, invoke generation, extract the
answer text with the fixed fallback, and compute the confidence heuristic;
every internal failure is caught and converted into the failure response, so
the function is total and never propagates an error. -/
noncomputable def answer_question (embed : PyStr → Except PyStr (List ℚ))
    (generate : PyStr → Except PyStr GenResponse) (settings : Settings)
    (request : QARequest) (session_id : Option PyStr) (store : RAGStore) : QAResponse :=
  match search_documents embed settings request.question request.max_sources none none store with
  | Except.error e => mkFailureResponse e session_id
  | Except.ok search_results =>
    let citation_sources := search_results.map mkCitation
    match generate (buildPrompt request.question search_results) with
    | Except.error e => mkFailureResponse e session_id
    | Except.ok resp =>
      let answer_text :=
        match extractAnswerText resp with
        | some t => if t = [] then fallbackAnswer else t
        | none => fallbackAnswer
      { success := true, answer := answer_text, sources := citation_sources,
        confidence := min ((citation_sources.length : ℝ) / 3) 1 * 0.9,
        session_id := session_id.getD "default".toList, error := none }

/-- The sentence boundary characters of chunk_document. -/
def sentenceBoundary (c : Char) : Bool := c = '.' || c = '!' || c = '?'

/-- Character loop of chunk_document over one line: accumulate characters
into a candidate sentence, flush the stripped candidate at every boundary
character when non-empty, and flush the stripped trailing remainder. -/
def lineSentencesAux : List Char → PyStr → List PyStr
  | [], cur => if pyStrip cur = [] then [] else [pyStrip cur]
  | c :: rest, cur =>
      if sentenceBoundary c then
        (if pyStrip (cur ++ [c]) = [] then [] else [pyStrip (cur ++ [c])]) ++
          lineSentencesAux rest []
      else lineSentencesAux rest (cur ++ [c])

/-- Sentences extracted from one line of text. -/
def lineSentences (line : PyStr) : List PyStr := lineSentencesAux line []

/-- The literal prefix identifying an embedded page marker line. -/
def pageMarker : PyStr := "--- Page".toList

/-- Decimal digits to a natural number. -/
def digitsToNat (ds : List Char) : Nat := ds.foldl (fun n c => n * 10 + (c.toNat - 48)) 0

/-- Python int applied to a token: optional sign followed by digits,
anything else raises (the none case). -/
def parsePyInt (s : PyStr) : Option Int :=
  match s with
  | [] => none
  | '-' :: ds => if ds ≠ [] ∧ ds.all Char.isDigit then some (-(digitsToNat ds : Int)) else none
  | '+' :: ds => if ds ≠ [] ∧ ds.all Char.isDigit then some (digitsToNat ds : Int) else none
  | ds => if ds.all Char.isDigit then some (digitsToNat ds : Int) else none

/-- Python str.split with no separator: split on whitespace runs, no empty
tokens. -/
def pySplitWsAux : List Char → List Char → List PyStr
  | [], cur => if cur = [] then [] else [cur.reverse]
  | c :: rest, cur =>
      if c.isWhitespace then
        if cur = [] then pySplitWsAux rest [] else cur.reverse :: pySplitWsAux rest []
      else pySplitWsAux rest (c :: cur)

/-- Python str.split with no separator. -/
def pySplitWs (s : PyStr) : List PyStr := pySplitWsAux s []

/-- Page marker handling of chunk_document: when the marker line has a third
whitespace-separated token, take it as the new page number, incrementing
instead when int raises; a marker line with fewer tokens leaves the page
unchanged. -/
def updatePage (line : PyStr) (page : Int) : Int :=
  let toks := pySplitWs line
  if 3 ≤ toks.length then
    match parsePyInt (toks.getD 2 []) with
    | some n => n
    | none => page + 1
  else page

/-- Line loop of chunk_document: page marker lines update the current page
and contribute no content, every other line contributes its sentences; the
result pairs the collected sentences with the final current page. -/
def scanLines : List PyStr → Int → List PyStr → (List PyStr × Int)
  | [], page, sents => (sents, page)
  | line :: rest, page, sents =>
      if pageMarker.isPrefixOf line then scanLines rest (updatePage line page) sents
      else scanLines rest page (sents ++ lineSentences line)

/-- Chunk construction in chunk_document; the display metadata mapping
(word count, character count, filename) is not modelled. -/
def mkChunk (filename content : PyStr) (page : Int) (idx : Nat) : DocumentChunk :=
  { id := filename ++ "_chunk_".toList ++ Nat.toDigits 10 idx
    content := content
    page_number := some page
    chunk_index := idx
    embedding := none }

/-- Sentence accumulation loop of chunk_document: re-strip and skip empty
sentences; when appending the next sentence would push the buffer past 4000
characters (a literal in the source), flush the non-empty buffer as a chunk
and start a fresh buffer with that sentence, otherwise append the sentence
and a single space; finally flush the non-empty remainder.  Every chunk
carries the final current page, which is what the source does because the
page variable is fully updated before this loop runs. -/
def buildChunks (filename : PyStr) (page : Int) : List PyStr → PyStr → Nat → List DocumentChunk
  | [], cur, idx => if pyStrip cur = [] then [] else [mkChunk filename (pyStrip cur) page idx]
  | s :: rest, cur, idx =>
      let s2 := pyStrip s
      if s2 = [] then buildChunks filename page rest cur idx
      else if 4000 < cur.length + s2.length then
        if cur = [] then buildChunks filename page rest (s2 ++ [' ']) idx
        else mkChunk filename (pyStrip cur) page idx ::
          buildChunks filename page rest (s2 ++ [' ']) (idx + 1)
      else buildChunks filename page rest (cur ++ s2 ++ [' ']) idx

/-- DocumentService.chunk_document: split the text into lines, collect the
sentences and the final page number, then accumulate sentence-bounded
chunks. -/
def chunk_document (text filename : PyStr) : List DocumentChunk :=
  let sp := scanLines (text.splitOn '\n') 1 []
  buildChunks filename sp.2 sp.1 [] 0

/-- The sentence list chunk_document derives from a text. -/
def sentencesOf (text : PyStr) : List PyStr := (scanLines (text.splitOn '\n') 1 []).1

/-- Largest stripped sentence length of a text, the natural bound for chunk
sizes. -/
def maxSentLen (text : PyStr) : Nat :=
  ((sentencesOf text).map (fun s => (pyStrip s).length)).foldr max 0

/-- Chunk validation filter in process_document: drop chunks with empty or
short (under 10 characters once stripped) content, clamp page numbers below
one to one. -/
def filterChunks (chunk_data : List DocumentChunk) : List DocumentChunk :=
  chunk_data.filterMap (fun chunk =>
    if chunk.content = [] ∨ (pyStrip chunk.content).length < 10 then none
    else
      some { chunk with page_number :=
        match chunk.page_number with
        | none => some 1
        | some p => if p < 1 then some 1 else some p })

/-- Python filename.rsplit with a dot, first component: the name without its
last extension. -/
def stripExtension (filename : PyStr) : PyStr :=
  if '.' ∈ filename then ((filename.reverse.dropWhile (fun c => decide (c ≠ '.'))).drop 1).reverse
  else filename

/-- DocumentService.process_document from the point where the text has been
extracted: build the document record in its processing state, chunk and
filter; when no chunk survives, raise DocumentProcessingError leaving every
store untouched; otherwise add to the RAG corpus, mark the document
completed and register it in the service map.  File validation, text
extraction and the best-effort JSON snapshot are outside the model. -/
def process_document (embedFn : PyStr → Except PyStr (List ℚ))
    (text_content filename doc_id : PyStr) (now : ℚ) (st : DocServiceState) :
    DocServiceState × Except PyStr Document :=
  let document : Document :=
    { id := doc_id, filename := filename, title := stripExtension filename,
      content := text_content, uploaded_at := now, chunk_count := 0,
      status := "processing".toList }
  let chunks := filterChunks (chunk_document text_content filename)
  if chunks = [] then
    (st, Except.error "No valid chunks generated from document".toList)
  else
    let r := add_document_to_corpus embedFn document chunks st.rag
    let document2 : Document :=
      { document with chunk_count := chunks.length, status := "completed".toList }
    ({ docs := dictSet doc_id document2 st.docs, rag := r.2 }, Except.ok document2)

/-- DocumentService.get_document: lookup in the service map. -/
def get_document (st : DocServiceState) (document_id : PyStr) : Option Document :=
  dictGet st.docs document_id

/-- Comparison on documents by upload timestamp. -/
def docLe (a b : Document) : Bool := decide (a.uploaded_at ≤ b.uploaded_at)

/-- DocumentService.list_documents: all documents sorted by upload timestamp
descending, sliced by offset and limit. -/
def list_documents (st : DocServiceState) (skip limit : Nat) : List Document :=
  ((sortGe docLe (st.docs.map Prod.snd)).drop skip).take limit

/-- DocumentService.delete_document: remove the entry from the service map
and return True; the RAG store maps are not touched (the source only warns
that corpus cleanup may be required), and the snapshot file removal is
outside the model. -/
def delete_document (st : DocServiceState) (document_id : PyStr) : Bool × DocServiceState :=
  (true, { st with docs := dictDel st.docs document_id })

lemma insertGe_perm {α : Type} (le : α → α → Bool) (x : α) (l : List α) :
    List.Perm (insertGe le x l) (x :: l) := by
  induction l with
  | nil => exact List.Perm.refl _
  | cons h t ih =>
    unfold insertGe
    by_cases hc : le x h
    · rw [if_pos hc]
      exact (ih.cons h).trans (List.Perm.swap x h t)
    · rw [if_neg hc]

lemma sortGe_perm {α : Type} (le : α → α → Bool) (l : List α) :
    List.Perm (sortGe le l) l := by
  induction l with
  | nil => exact List.Perm.refl _
  | cons h t ih => exact (insertGe_perm le h (sortGe le t)).trans (ih.cons h)

lemma mem_sortGe {α : Type} {le : α → α → Bool} {l : List α} {a : α} :
    a ∈ sortGe le l ↔ a ∈ l := (sortGe_perm le l).mem_iff

lemma insertGe_pairwise {α : Type} {le : α → α → Bool}
    (htot : ∀ a b, le a b = true ∨ le b a = true)
    (htrans : ∀ a b c, le a b = true → le b c = true → le a c = true)
    (x : α) {l : List α} (hl : l.Pairwise (fun a b => le b a = true)) :
    (insertGe le x l).Pairwise (fun a b => le b a = true) := by
  induction l with
  | nil => simp [insertGe]
  | cons h t ih =>
    rcases List.pairwise_cons.mp hl with ⟨hh, ht⟩
    unfold insertGe
    by_cases hc : le x h
    · rw [if_pos hc]
      refine List.pairwise_cons.mpr ⟨?_, ih ht⟩
      intro y hy
      rcases List.mem_cons.mp ((insertGe_perm le x t).mem_iff.mp hy) with rfl | hyt
      · exact hc
      · exact hh y hyt
    · rw [if_neg hc]
      have hcx : le h x = true := by
        rcases htot x h with hxh | hhx
        · exact absurd hxh hc
        · exact hhx
      refine List.pairwise_cons.mpr ⟨?_, hl⟩
      intro y hy
      rcases List.mem_cons.mp hy with rfl | hyt
      · exact hcx
      · exact htrans y h x (hh y hyt) hcx

lemma sortGe_pairwise {α : Type} {le : α → α → Bool}
    (htot : ∀ a b, le a b = true ∨ le b a = true)
    (htrans : ∀ a b c, le a b = true → le b c = true → le a c = true)
    (l : List α) : (sortGe le l).Pairwise (fun a b => le b a = true) := by
  induction l with
  | nil => simp [sortGe]
  | cons h t ih => exact insertGe_pairwise htot htrans h ih

lemma dictGet_dictSet_self {α : Type} (k : PyStr) (v : α) (m : List (PyStr × α)) :
    dictGet (dictSet k v m) k = some v := by
  induction m with
  | nil => simp [dictGet, dictSet, List.find?]
  | cons p t ih =>
    unfold dictSet
    by_cases hp : p.1 = k
    · rw [if_pos hp]
      simp [dictGet, List.find?]
    · rw [if_neg hp]
      unfold dictGet at ih ⊢
      rw [List.find?_cons_of_neg]
      · exact ih
      · simpa using hp

lemma dictSet_fst_mem {α : Type} (k : PyStr) (v : α) (m : List (PyStr × α)) :
    ∀ q ∈ dictSet k v m, q.1 = k ∨ q.1 ∈ m.map Prod.fst := by
  induction m with
  | nil =>
    intro q hq
    rw [dictSet] at hq
    have := List.mem_singleton.mp hq
    subst this
    exact Or.inl rfl
  | cons p t ih =>
    intro q hq
    unfold dictSet at hq
    by_cases hp : p.1 = k
    · rw [if_pos hp] at hq
      rcases List.mem_cons.mp hq with rfl | hqt
      · exact Or.inl rfl
      · exact Or.inr (List.mem_map.mpr ⟨q, List.mem_cons_of_mem p hqt, rfl⟩)
    · rw [if_neg hp] at hq
      rcases List.mem_cons.mp hq with rfl | hqt
      · exact Or.inr (List.mem_map.mpr ⟨q, List.mem_cons_self _ _, rfl⟩)
      · rcases ih q hqt with h | h
        · exact Or.inl h
        · rcases List.mem_map.mp h with ⟨q2, hq2, hq2e⟩
          exact Or.inr (List.mem_map.mpr ⟨q2, List.mem_cons_of_mem p hq2, hq2e⟩)

lemma dictSet_entry_eq {α : Type} {k : PyStr} {v : α} {m : List (PyStr × α)}
    (hnd : (m.map Prod.fst).Nodup) :
    ∀ q ∈ dictSet k v m, q.1 = k → q.2 = v := by
  induction m with
  | nil =>
    intro q hq _
    rw [dictSet] at hq
    have := List.mem_singleton.mp hq
    subst this
    rfl
  | cons p t ih =>
    intro q hq hqk
    rw [List.map_cons] at hnd
    rcases List.pairwise_cons.mp hnd with ⟨hph, hpt⟩
    unfold dictSet at hq
    by_cases hp : p.1 = k
    · rw [if_pos hp] at hq
      rcases List.mem_cons.mp hq with rfl | hqt
      · rfl
      · exfalso
        have hmem : q.1 ∈ t.map Prod.fst := List.mem_map.mpr ⟨q, hqt, rfl⟩
        have := hph q.1 hmem
        rw [hqk, ← hp] at this
        exact this rfl
    · rw [if_neg hp] at hq
      rcases List.mem_cons.mp hq with rfl | hqt
      · exact absurd hqk hp
      · exact ih hpt q hqt hqk

lemma dictGet_dictDel_self {α : Type} (m : List (PyStr × α)) (k : PyStr) :
    dictGet (dictDel m k) k = none := by
  unfold dictGet dictDel
  rw [List.find?_eq_none.mpr]
  · rfl
  · intro p hp
    have := List.of_mem_filter hp
    simp at this ⊢
    exact this

lemma mem_dictDel_values {α : Type} {m : List (PyStr × α)} {k : PyStr} {d : α}
    (h : d ∈ (dictDel m k).map Prod.snd) : ∃ q ∈ m, q.1 ≠ k ∧ q.2 = d := by
  rcases List.mem_map.mp h with ⟨q, hq, rfl⟩
  have hqm := List.mem_of_mem_filter hq
  have hqk := List.of_mem_filter hq
  simp at hqk
  exact ⟨q, hqm, hqk, rfl⟩

lemma dotp_self_nonneg (v : List ℚ) : 0 ≤ dotp v v := by
  unfold dotp
  induction v with
  | nil => simp
  | cons x t ih =>
    simp only [List.zipWith, List.sum_cons]
    exact add_nonneg (mul_self_nonneg x) ih

lemma cosineCore_eq_ratGuard (v1 v2 : List ℚ) :
    cosineCore v1 v2 =
      if dotp v1 v1 = 0 ∨ dotp v2 v2 = 0 then Except.ok 0
      else if v1.length = v2.length then
        Except.ok (((dotp v1 v2 : ℚ) : ℝ) /
          (Real.sqrt ((dotp v1 v1 : ℚ) : ℝ) * Real.sqrt ((dotp v2 v2 : ℚ) : ℝ)))
      else Except.error () := by
  unfold cosineCore
  by_cases h : dotp v1 v1 = 0 ∨ dotp v2 v2 = 0
  · have hd : Real.sqrt ((dotp v1 v1 : ℚ) : ℝ) * Real.sqrt ((dotp v2 v2 : ℚ) : ℝ) = 0 := by
      rcases h with h | h
      · rw [h]; simp
      · rw [h]; simp
    rw [if_pos hd, if_pos h]
  · have hpair := not_or.mp h
    have h1 : (0 : ℝ) < ((dotp v1 v1 : ℚ) : ℝ) :=
      lt_of_le_of_ne (by exact_mod_cast dotp_self_nonneg v1)
        (by exact_mod_cast Ne.symm hpair.1)
    have h2 : (0 : ℝ) < ((dotp v2 v2 : ℚ) : ℝ) :=
      lt_of_le_of_ne (by exact_mod_cast dotp_self_nonneg v2)
        (by exact_mod_cast Ne.symm hpair.2)
    have hd : Real.sqrt ((dotp v1 v1 : ℚ) : ℝ) * Real.sqrt ((dotp v2 v2 : ℚ) : ℝ) ≠ 0 :=
      mul_ne_zero (ne_of_gt (Real.sqrt_pos.mpr h1)) (ne_of_gt (Real.sqrt_pos.mpr h2))
    rw [if_neg hd, if_neg h]

lemma cosine_of_core_ok {v1 v2 : List ℚ} {x : ℝ} (h : cosineCore v1 v2 = Except.ok x) :
    cosine_similarity v1 v2 = x := by
  unfold cosine_similarity
  rw [h]

lemma cosine_of_core_error {v1 v2 : List ℚ} {e : Unit} (h : cosineCore v1 v2 = Except.error e) :
    cosine_similarity v1 v2 = 0 := by
  unfold cosine_similarity
  rw [h]

lemma cosineCore_self {v : List ℚ} (h : dotp v v ≠ 0) : cosineCore v v = Except.ok 1 := by
  rw [cosineCore_eq_ratGuard, if_neg (by simp [h]), if_pos rfl]
  have hpos : (0 : ℝ) < ((dotp v v : ℚ) : ℝ) :=
    lt_of_le_of_ne (by exact_mod_cast dotp_self_nonneg v) (by exact_mod_cast Ne.symm h)
  rw [Real.mul_self_sqrt hpos.le, div_self (ne_of_gt hpos)]

lemma dotp_replicate_zero (n : Nat) :
    dotp (List.replicate n 0) (List.replicate n 0) = 0 := by
  simp [dotp, List.zipWith_replicate, List.sum_replicate]

lemma cosineCore_zero_left (n : Nat) (w : List ℚ) :
    cosineCore (List.replicate n 0) w = Except.ok 0 := by
  rw [cosineCore_eq_ratGuard, if_pos (Or.inl (dotp_replicate_zero n))]

lemma cosine_mismatch {v1 v2 : List ℚ} (h : v1.length ≠ v2.length) :
    cosine_similarity v1 v2 = 0 := by
  unfold cosine_similarity
  rw [cosineCore_eq_ratGuard]
  by_cases hz : dotp v1 v1 = 0 ∨ dotp v2 v2 = 0
  · rw [if_pos hz]
  · rw [if_neg hz, if_neg h]

lemma mem_gatherResults {qe : List ℚ} {th : ℚ} {ids : Option (List PyStr)}
    {store : RAGStore} {r : SearchResult} (h : r ∈ gatherResults qe th ids store) :
    (th : ℝ) ≤ r.similarity ∧ ∃ l, r.chunk.embedding = some l ∧ l ≠ [] := by
  unfold gatherResults at h
  rw [List.mem_flatten] at h
  obtain ⟨L, hL, hrL⟩ := h
  rw [List.mem_map] at hL
  obtain ⟨p, _, rfl⟩ := hL
  by_cases hs : skipByFilter ids p.1
  · rw [if_pos hs] at hrL
    exact absurd hrL (List.not_mem_nil r)
  · rw [if_neg hs] at hrL
    cases hd : dictGet store.documents p.1 with
    | none =>
      rw [hd] at hrL
      exact absurd hrL (List.not_mem_nil r)
    | some document =>
      rw [hd] at hrL
      unfold chunkResults at hrL
      rw [List.mem_filterMap] at hrL
      obtain ⟨chunk, _, hcr⟩ := hrL
      split at hcr
      · cases hcr
      · split at hcr
        · cases hcr
        · split at hcr
          · rename_i emb heq hemb hth
            injection hcr with hcr
            subst hcr
            exact ⟨hth, emb, heq, hemb⟩
          · cases hcr

lemma simLe_total : ∀ a b : SearchResult, simLe a b = true ∨ simLe b a = true := by
  intro a b
  unfold simLe
  rcases le_total a.similarity b.similarity with h | h
  · exact Or.inl (decide_eq_true h)
  · exact Or.inr (decide_eq_true h)

lemma simLe_trans : ∀ a b c : SearchResult,
    simLe a b = true → simLe b c = true → simLe a c = true := by
  intro a b c hab hbc
  unfold simLe at hab hbc ⊢
  exact decide_eq_true (le_trans (of_decide_eq_true hab) (of_decide_eq_true hbc))

lemma search_documents_ok_props {embed : PyStr → Except PyStr (List ℚ)} {settings : Settings}
    {query : PyStr} {limit : Nat} {threshold : Option ℚ} {document_ids : Option (List PyStr)}
    {store : RAGStore} {rs : List SearchResult}
    (h : search_documents embed settings query limit threshold document_ids store = Except.ok rs) :
    rs.length ≤ limit ∧
    (∀ r ∈ rs, ((threshold.getD settings.similarity_threshold : ℚ) : ℝ) ≤ r.similarity) ∧
    rs.Pairwise (fun a b => b.similarity ≤ a.similarity) ∧
    (∀ r ∈ rs, ∃ l, r.chunk.embedding = some l ∧ l ≠ []) := by
  unfold search_documents at h
  cases hq : embed query with
  | error e =>
    rw [hq] at h
    cases h
  | ok qe =>
    rw [hq] at h
    injection h with h
    subst h
    refine ⟨?_, ?_, ?_, ?_⟩
    · exact List.length_take_le _ _
    · intro r hr
      exact (mem_gatherResults (mem_sortGe.mp (List.mem_of_mem_take hr))).1
    · have hs := sortGe_pairwise simLe_total simLe_trans
        (gatherResults qe (threshold.getD settings.similarity_threshold) document_ids store)
      exact ((hs.sublist (List.take_sublist _ _)).imp (fun hab => of_decide_eq_true hab))
    · intro r hr
      exact (mem_gatherResults (mem_sortGe.mp (List.mem_of_mem_take hr))).2

/-- Concrete document used to exercise the store operations. -/
def cdoc : Document :=
  { id := "d1".toList, filename := "cv.txt".toList, title := "cv".toList,
    content := "experiencia en python".toList, uploaded_at := 10, chunk_count := 1,
    status := "completed".toList }

/-- Concrete stored chunk with a one-dimensional embedding. -/
def cchunk : DocumentChunk :=
  { id := "cv.txt_chunk_0".toList, content := "experiencia en python".toList,
    page_number := some 1, chunk_index := 0, embedding := some [1] }

/-- Concrete service state holding one fully ingested document. -/
def cstate : DocServiceState :=
  { docs := [("d1".toList, cdoc)],
    rag := { documents := [("d1".toList, cdoc)],
             chunks_by_document := [("d1".toList, [cchunk])] } }

/-- Embedding provider that always yields the one-dimensional vector [1]. -/
def embedOne : PyStr → Except PyStr (List ℚ) := fun _ => Except.ok [1]

/-- Embedding provider that always raises. -/
def embedFail : PyStr → Except PyStr (List ℚ) := fun _ => Except.error "boom".toList

/-- The search result produced by searching cstate with embedOne. -/
noncomputable def cResult : SearchResult :=
  { chunk := cchunk, document := cdoc, similarity := 1, relevance_score := 1 }

lemma cosine_one_one : cosine_similarity [1] [1] = 1 :=
  cosine_of_core_ok (cosineCore_self (by norm_num [dotp, List.zipWith]))

lemma chunkResults_eval : chunkResults [1] (0.4 : ℚ) cdoc [cchunk] = [cResult] := by
  have hle : (((0.4 : ℚ) : ℝ)) ≤ (1 : ℝ) := by norm_num
  unfold chunkResults
  rw [List.filterMap_cons]
  have hstep :
      (match cchunk.embedding with
        | none => none
        | some emb =>
          if emb = [] then none
          else if ((0.4 : ℚ) : ℝ) ≤ cosine_similarity [1] emb then
            some { chunk := cchunk, document := cdoc,
                   similarity := cosine_similarity [1] emb,
                   relevance_score := cosine_similarity [1] emb }
          else none) = some cResult := by
    show (if ([1] : List ℚ) = [] then none
          else if ((0.4 : ℚ) : ℝ) ≤ cosine_similarity [1] [1] then
            some { chunk := cchunk, document := cdoc,
                   similarity := cosine_similarity [1] [1],
                   relevance_score := cosine_similarity [1] [1] }
          else none) = some cResult
    rw [cosine_one_one, if_neg (by decide), if_pos hle]
    rfl
  rw [hstep, List.filterMap_nil]

lemma gather_eval : gatherResults [1] (0.4 : ℚ) none cstate.rag = [cResult] := by
  unfold gatherResults
  have hmap : cstate.rag.chunks_by_document = [("d1".toList, [cchunk])] := rfl
  rw [hmap, List.map_cons, List.map_nil]
  have hskip : skipByFilter none ("d1".toList, [cchunk]).1 = false := rfl
  rw [if_neg (by rw [hskip]; exact Bool.false_ne_true)]
  have hdg : dictGet cstate.rag.documents ("d1".toList, [cchunk]).1 = some cdoc := rfl
  rw [hdg]
  show (chunkResults [1] (0.4 : ℚ) cdoc [cchunk] :: []).flatten = [cResult]
  rw [chunkResults_eval]
  rfl

lemma search_eval :
    search_documents embedOne defaultSettings "q".toList 5 none none cstate.rag =
      Except.ok [cResult] := by
  unfold search_documents
  show Except.ok ((sortGe simLe (gatherResults [1]
      ((none : Option ℚ).getD defaultSettings.similarity_threshold) none cstate.rag)).take 5) =
    Except.ok [cResult]
  have hth : ((none : Option ℚ).getD defaultSettings.similarity_threshold) = (0.4 : ℚ) := rfl
  rw [hth, gather_eval]
  rfl

/-- Generation provider that always succeeds with a plain text response. -/
def genOk : PyStr → Except PyStr GenResponse :=
  fun _ => Except.ok (GenResponse.textResp "hola".toList)

/-- Embedding dropped by enrichment only when the provider raised; a stored
enriched chunk always carries some embedding vector. -/
lemma enrichChunk_embedding {embedFn : PyStr → Except PyStr (List ℚ)}
    {c c2 : DocumentChunk} (h : enrichChunk embedFn c = some c2) :
    ∃ l, c2.embedding = some l := by
  unfold enrichChunk at h
  split at h
  · injection h with h
    subst h
    exact ⟨_, rfl⟩
  · cases h

/-- C1: for every query, limit and threshold, a successful search returns at
most limit results, every returned similarity is at least the effective
threshold (the caller-supplied one, or the configured default 0.4 when none
is supplied), and the returned sequence is sorted non-increasing by
similarity. -/
theorem C1_search_limit_threshold_sorted
    (embed : PyStr → Except PyStr (List ℚ)) (query : PyStr) (limit : Nat)
    (threshold : Option ℚ) (document_ids : Option (List PyStr)) (store : RAGStore)
    (rs : List SearchResult)
    (h : search_documents embed defaultSettings query limit threshold document_ids store =
      Except.ok rs) :
    rs.length ≤ limit ∧
    (∀ r ∈ rs, ((threshold.getD (0.4 : ℚ) : ℚ) : ℝ) ≤ r.similarity) ∧
    rs.Pairwise (fun a b => b.similarity ≤ a.similarity) := by
  have hp := search_documents_ok_props h
  exact ⟨hp.1, hp.2.1, hp.2.2.1⟩

/-- Witness for C1 at a concrete one-document store. -/
theorem C1_search_limit_threshold_sorted_witness :
    search_documents embedOne defaultSettings "q".toList 5 none none cstate.rag =
      Except.ok [cResult] ∧
    ([cResult].length ≤ 5 ∧
      (∀ r ∈ [cResult], (((none : Option ℚ).getD (0.4 : ℚ) : ℚ) : ℝ) ≤ r.similarity) ∧
      ([cResult]).Pairwise (fun a b => b.similarity ≤ a.similarity)) :=
  ⟨search_eval,
    C1_search_limit_threshold_sorted embedOne "q".toList 5 none none cstate.rag [cResult]
      search_eval⟩

/-- C2 counterexample: after deleting the only document, get no longer finds
it, yet a search over the RAG store still returns the result built from the
chunk that belonged only to the deleted document. -/
theorem C2_delete_then_search_counterexample :
    get_document (delete_document cstate "d1".toList).2 ("d1".toList) = none ∧
    search_documents embedOne defaultSettings "q".toList 5 none none
      (delete_document cstate "d1".toList).2.rag = Except.ok [cResult] ∧
    cResult.document.id = "d1".toList ∧
    cResult.chunk.id = "cv.txt_chunk_0".toList := by
  refine ⟨rfl, ?_, rfl, rfl⟩
  show search_documents embedOne defaultSettings "q".toList 5 none none cstate.rag =
    Except.ok [cResult]
  exact search_eval

/-- C2 amended: deleting a document removes it from subsequent get and list
results, but the RAG store is left untouched, so subsequent searches are
unaffected and may still return results from chunks of the deleted
document. -/
theorem C2_delete_removes_only_local_state
    (st : DocServiceState) (document_id : PyStr)
    (hwf : ∀ p ∈ st.docs, p.2.id = p.1) :
    get_document (delete_document st document_id).2 document_id = none ∧
    (∀ skip limit d, d ∈ list_documents (delete_document st document_id).2 skip limit →
      d.id ≠ document_id) ∧
    (delete_document st document_id).2.rag = st.rag := by
  refine ⟨dictGet_dictDel_self st.docs document_id, ?_, rfl⟩
  intro skip limit d hd
  unfold list_documents at hd
  have h1 : d ∈ (dictDel st.docs document_id).map Prod.snd :=
    mem_sortGe.mp (List.mem_of_mem_drop (List.mem_of_mem_take hd))
  obtain ⟨q, hq, hqk, hqd⟩ := mem_dictDel_values h1
  subst hqd
  rw [hwf q hq]
  exact hqk

/-- Witness for the amended C2 at a concrete one-document state. -/
theorem C2_delete_removes_only_local_state_witness :
    (∀ p ∈ cstate.docs, p.2.id = p.1) ∧
    get_document (delete_document cstate "d1".toList).2 ("d1".toList) = none ∧
    (∀ skip limit d, d ∈ list_documents (delete_document cstate "d1".toList).2 skip limit →
      d.id ≠ "d1".toList) ∧
    (delete_document cstate "d1".toList).2.rag = cstate.rag := by
  have hwf : ∀ p ∈ cstate.docs, p.2.id = p.1 := by
    intro p hp
    rcases List.mem_singleton.mp hp with rfl
    rfl
  have h := C2_delete_removes_only_local_state cstate "d1".toList hwf
  exact ⟨hwf, h.1, h.2.1, h.2.2⟩

/-- C3: whenever the search step fails (including an embedding failure) or
the generation provider throws, answer_question returns a QAResponse with
success false, the apologetic localized answer, no sources, confidence
exactly zero and the error detail attached, instead of propagating the
error. -/
theorem C3_answer_question_never_raises
    (embed : PyStr → Except PyStr (List ℚ)) (generate : PyStr → Except PyStr GenResponse)
    (settings : Settings) (request : QARequest) (session_id : Option PyStr)
    (store : RAGStore) (e : PyStr)
    (h : search_documents embed settings request.question request.max_sources none none store =
        Except.error e ∨
      (∃ rs, search_documents embed settings request.question request.max_sources none none
          store = Except.ok rs ∧
        generate (buildPrompt request.question rs) = Except.error e)) :
    (answer_question embed generate settings request session_id store).success = false ∧
    (answer_question embed generate settings request session_id store).answer =
      apologyAnswer ∧
    (answer_question embed generate settings request session_id store).sources = [] ∧
    (answer_question embed generate settings request session_id store).confidence = 0 ∧
    (answer_question embed generate settings request session_id store).error = some e := by
  unfold answer_question
  rcases h with h | ⟨rs, hok, hgen⟩
  · rw [h]
    exact ⟨rfl, rfl, rfl, rfl, rfl⟩
  · simp only [hok, hgen]
    exact ⟨rfl, rfl, rfl, rfl, rfl⟩

/-- Witness for C3: a provider whose embedding call always raises. -/
theorem C3_answer_question_never_raises_witness :
    search_documents embedFail defaultSettings "q".toList 3 none none cstate.rag =
      Except.error "Search failed: boom".toList ∧
    (answer_question embedFail genOk defaultSettings
        { question := "q".toList, max_sources := 3 } none cstate.rag).success = false ∧
    (answer_question embedFail genOk defaultSettings
        { question := "q".toList, max_sources := 3 } none cstate.rag).answer =
      apologyAnswer ∧
    (answer_question embedFail genOk defaultSettings
        { question := "q".toList, max_sources := 3 } none cstate.rag).sources = [] ∧
    (answer_question embedFail genOk defaultSettings
        { question := "q".toList, max_sources := 3 } none cstate.rag).confidence = 0 ∧
    (answer_question embedFail genOk defaultSettings
        { question := "q".toList, max_sources := 3 } none cstate.rag).error =
      some "Search failed: boom".toList := by
  have h := C3_answer_question_never_raises embedFail genOk defaultSettings
    { question := "q".toList, max_sources := 3 } none cstate.rag
    "Search failed: boom".toList (Or.inl rfl)
  exact ⟨rfl, h.1, h.2.1, h.2.2.1, h.2.2.2.1, h.2.2.2.2⟩

/-- C4 counterexample: on a dimensionality mismatch with non-zero norms the
internal computation raises (numpy refuses the dot product), but the method
catches every exception and returns the similarity value 0.0 instead of
failing fast. -/
theorem C4_mismatch_counterexample :
    cosineCore [1, 2] [1, 2, 3] = Except.error () ∧
    cosine_similarity [1, 2] [1, 2, 3] = 0 := by
  have hcore : cosineCore [1, 2] [1, 2, 3] = Except.error () := by
    rw [cosineCore_eq_ratGuard]
    rw [if_neg, if_neg]
    · decide
    · norm_num [dotp, List.zipWith_cons_cons, List.zipWith_nil_right, List.sum_cons,
        List.sum_nil]
  exact ⟨hcore, cosine_of_core_error hcore⟩

/-- C4 amended: for every pair of vectors of differing dimensionality the
cosine similarity method swallows the internal failure and returns 0.0,
which callers treat as an ordinary similarity value; it never raises. -/
theorem C4_mismatch_returns_zero (v1 v2 : List ℚ) (h : v1.length ≠ v2.length) :
    cosine_similarity v1 v2 = 0 := cosine_mismatch h

/-- Witness for the amended C4 at a concrete mismatched pair. -/
theorem C4_mismatch_returns_zero_witness :
    ([1, 2] : List ℚ).length ≠ ([1, 2, 3] : List ℚ).length ∧
    cosine_similarity [1, 2] [1, 2, 3] = 0 :=
  ⟨by decide, C4_mismatch_returns_zero [1, 2] [1, 2, 3] (by decide)⟩

/-- C5: every chunk reachable through search carries a non-empty embedding
(chunks with an absent or empty embedding are skipped), and the enrichment
path of add_document_to_corpus never stores a chunk without an embedding:
every chunk it writes got some vector from the provider, failures being
dropped. -/
theorem C5_no_embeddingless_chunk_reachable :
    (∀ (embed : PyStr → Except PyStr (List ℚ)) (settings : Settings) (query : PyStr)
      (limit : Nat) (threshold : Option ℚ) (ids : Option (List PyStr)) (store : RAGStore)
      (rs : List SearchResult),
      search_documents embed settings query limit threshold ids store = Except.ok rs →
      ∀ r ∈ rs, ∃ l, r.chunk.embedding = some l ∧ l ≠ []) ∧
    (∀ (embedFn : PyStr → Except PyStr (List ℚ)) (document : Document)
      (chunks : List DocumentChunk) (store : RAGStore) (cl : List DocumentChunk)
      (c : DocumentChunk),
      dictGet (add_document_to_corpus embedFn document chunks store).2.chunks_by_document
        document.id = some cl →
      c ∈ cl → ∃ l, c.embedding = some l) := by
  constructor
  · intro embed settings query limit threshold ids store rs h r hr
    exact (search_documents_ok_props h).2.2.2 r hr
  · intro embedFn document chunks store cl c hget hc
    have hself : dictGet
        (add_document_to_corpus embedFn document chunks store).2.chunks_by_document
        document.id = some (chunks.filterMap (enrichChunk embedFn)) :=
      dictGet_dictSet_self _ _ _
    rw [hself] at hget
    injection hget with hget
    subst hget
    obtain ⟨c0, _, h0⟩ := List.mem_filterMap.mp hc
    exact enrichChunk_embedding h0

/-- Witness for C5 at a concrete store and ingestion call. -/
theorem C5_no_embeddingless_chunk_reachable_witness :
    search_documents embedOne defaultSettings "q".toList 5 none none cstate.rag =
      Except.ok [cResult] ∧
    (∃ l, cResult.chunk.embedding = some l ∧ l ≠ []) ∧
    dictGet (add_document_to_corpus embedOne cdoc [cchunk]
      { documents := [], chunks_by_document := [] }).2.chunks_by_document cdoc.id =
      some [{ cchunk with embedding := some [1] }] ∧
    (∃ l, ({ cchunk with embedding := some [1] } : DocumentChunk).embedding = some l) := by
  refine ⟨search_eval, ?_, rfl, ?_⟩
  · exact C5_no_embeddingless_chunk_reachable.1 embedOne defaultSettings "q".toList 5
      none none cstate.rag [cResult] search_eval cResult (List.mem_singleton.mpr rfl)
  · exact C5_no_embeddingless_chunk_reachable.2 embedOne cdoc [cchunk]
      { documents := [], chunks_by_document := [] }
      [{ cchunk with embedding := some [1] }] { cchunk with embedding := some [1] }
      rfl (List.mem_singleton.mpr rfl)

/-- C6: cosine similarity of a vector with itself is exactly 1 whenever its
norm is non-zero (the model uses exact reals, so the floating-point
tolerance is zero), and the similarity of a zero vector with anything is 0
through the guarded zero-denominator branch, with no division by zero. -/
theorem C6_cosine_self_one_zero_guarded :
    (∀ v : List ℚ, dotp v v ≠ 0 → cosine_similarity v v = 1) ∧
    (∀ (n : Nat) (w : List ℚ), cosine_similarity (List.replicate n 0) w = 0) :=
  ⟨fun _ h => cosine_of_core_ok (cosineCore_self h),
   fun n w => cosine_of_core_ok (cosineCore_zero_left n w)⟩

/-- Witness for C6 at a concrete non-zero vector and the zero vector. -/
theorem C6_cosine_self_one_zero_guarded_witness :
    dotp [1] [1] ≠ 0 ∧ cosine_similarity [1] [1] = 1 ∧
    cosine_similarity (List.replicate 2 (0 : ℚ)) [3] = 0 := by
  have hd : dotp [1] [1] ≠ 0 := by
    norm_num [dotp, List.zipWith_cons_cons, List.zipWith_nil_right]
  exact ⟨hd, C6_cosine_self_one_zero_guarded.1 [1] hd,
    C6_cosine_self_one_zero_guarded.2 2 [3]⟩

/-- C8: when no chunk survives the short-content filter, process_document
fails with the DocumentProcessingError and leaves the service and RAG store
maps exactly as they were. -/
theorem C8_process_document_no_valid_chunks
    (embedFn : PyStr → Except PyStr (List ℚ)) (text_content filename doc_id : PyStr)
    (now : ℚ) (st : DocServiceState)
    (h : filterChunks (chunk_document text_content filename) = []) :
    (process_document embedFn text_content filename doc_id now st).1 = st ∧
    (process_document embedFn text_content filename doc_id now st).2 =
      Except.error "No valid chunks generated from document".toList := by
  unfold process_document
  rw [h]
  exact ⟨rfl, rfl⟩

/-- Witness for C8: a document whose single sentence is shorter than the
ten-character minimum. -/
theorem C8_process_document_no_valid_chunks_witness :
    filterChunks (chunk_document "Hi.".toList "a.txt".toList) = [] ∧
    (process_document embedOne "Hi.".toList "a.txt".toList "id1".toList 0 cstate).1 =
      cstate ∧
    (process_document embedOne "Hi.".toList "a.txt".toList "id1".toList 0 cstate).2 =
      Except.error "No valid chunks generated from document".toList := by
  have hf : filterChunks (chunk_document "Hi.".toList "a.txt".toList) = [] := rfl
  have h := C8_process_document_no_valid_chunks embedOne "Hi.".toList "a.txt".toList
    "id1".toList 0 cstate hf
  exact ⟨hf, h.1, h.2⟩

/-- C10: when embedding generation fails for every chunk, the ingestion call
still returns True and registers the document with an empty chunk list, so
the document stays visible to reads while a search restricted to it yields
no result, and the caller still marks documents it processes as
completed. -/
theorem C10_all_embeddings_fail_still_registered
    (embedFn : PyStr → Except PyStr (List ℚ))
    (hfail : ∀ t, ∃ e, embedFn t = Except.error e)
    (document : Document) (chunks : List DocumentChunk) (store : RAGStore)
    (hnodup : (store.chunks_by_document.map Prod.fst).Nodup) :
    (add_document_to_corpus embedFn document chunks store).1 = true ∧
    dictGet (add_document_to_corpus embedFn document chunks store).2.documents
      document.id = some document ∧
    dictGet (add_document_to_corpus embedFn document chunks store).2.chunks_by_document
      document.id = some [] ∧
    (∀ (embed2 : PyStr → Except PyStr (List ℚ)) (settings : Settings) (query : PyStr)
      (limit : Nat) (threshold : Option ℚ) (qe : List ℚ),
      embed2 query = Except.ok qe →
      search_documents embed2 settings query limit threshold (some [document.id])
        (add_document_to_corpus embedFn document chunks store).2 = Except.ok []) ∧
    (∀ (text filename doc_id : PyStr) (now : ℚ) (st : DocServiceState) (d : Document),
      (process_document embedFn text filename doc_id now st).2 = Except.ok d →
      d.status = "completed".toList) := by
  have henr : chunks.filterMap (enrichChunk embedFn) = [] := by
    rw [List.filterMap_eq_nil_iff]
    intro c _
    obtain ⟨e, he⟩ := hfail c.content
    unfold enrichChunk
    rw [he]
  refine ⟨rfl, dictGet_dictSet_self _ _ _, ?_, ?_, ?_⟩
  · show dictGet (dictSet document.id (chunks.filterMap (enrichChunk embedFn))
        store.chunks_by_document) document.id = some []
    rw [henr]
    exact dictGet_dictSet_self _ _ _
  · intro embed2 settings query limit threshold qe hq
    have hgather : gatherResults qe (threshold.getD settings.similarity_threshold)
        (some [document.id]) (add_document_to_corpus embedFn document chunks store).2 =
        [] := by
      unfold gatherResults
      rw [List.flatten_eq_nil_iff]
      intro l hl
      rw [List.mem_map] at hl
      obtain ⟨p, hp, rfl⟩ := hl
      have hp2 : p ∈ dictSet document.id (chunks.filterMap (enrichChunk embedFn))
          store.chunks_by_document := hp
      by_cases hpk : p.1 = document.id
      · have hval : p.2 = chunks.filterMap (enrichChunk embedFn) :=
          dictSet_entry_eq hnodup p hp2 hpk
        rw [if_neg (by rw [hpk]; simp [skipByFilter])]
        cases hdoc : dictGet
            (add_document_to_corpus embedFn document chunks store).2.documents p.1 with
        | none => rfl
        | some doc2 =>
          rw [hval, henr]
          rfl
      · rw [if_pos (by simp [skipByFilter, hpk])]
    unfold search_documents
    simp only [hq]
    rw [hgather]
    simp [sortGe]
  · intro text filename doc_id now st d hd
    simp only [process_document] at hd
    by_cases hc : filterChunks (chunk_document text filename) = []
    · rw [if_pos hc] at hd
      exact absurd hd (by simp)
    · rw [if_neg hc] at hd
      injection hd with hdd
      subst hdd
      rfl

/-- Witness for C10: an always-failing embedder over an empty store. -/
theorem C10_all_embeddings_fail_still_registered_witness :
    (∀ t, ∃ e, embedFail t = Except.error e) ∧
    (add_document_to_corpus embedFail cdoc [cchunk]
      { documents := [], chunks_by_document := [] }).1 = true ∧
    dictGet (add_document_to_corpus embedFail cdoc [cchunk]
      { documents := [], chunks_by_document := [] }).2.documents cdoc.id = some cdoc ∧
    dictGet (add_document_to_corpus embedFail cdoc [cchunk]
      { documents := [], chunks_by_document := [] }).2.chunks_by_document cdoc.id =
      some [] ∧
    search_documents embedOne defaultSettings "q".toList 5 none (some [cdoc.id])
      (add_document_to_corpus embedFail cdoc [cchunk]
        { documents := [], chunks_by_document := [] }).2 = Except.ok [] := by
  have hfail : ∀ t, ∃ e, embedFail t = Except.error e := fun _ => ⟨"boom".toList, rfl⟩
  have h := C10_all_embeddings_fail_still_registered embedFail hfail cdoc [cchunk]
    { documents := [], chunks_by_document := [] } (by simp)
  exact ⟨hfail, h.1, h.2.1, h.2.2.1,
    h.2.2.2.1 embedOne defaultSettings "q".toList 5 none [1] rfl⟩

lemma dropWhile_head_not {p : Char → Bool} :
    ∀ (l : List Char) (c : Char), (l.dropWhile p).head? = some c → p c = false := by
  intro l
  induction l with
  | nil => intro c hc; cases hc
  | cons a t ih =>
    intro c hc
    by_cases ha : p a
    · rw [List.dropWhile_cons_of_pos ha] at hc
      exact ih c hc
    · rw [List.dropWhile_cons_of_neg ha] at hc
      injection hc with hc
      subst hc
      exact Bool.eq_false_iff.mpr ha

lemma dropWhile_eq_self_of_head {p : Char → Bool} {l : List Char}
    (h : ∀ c, l.head? = some c → p c = false) : l.dropWhile p = l := by
  cases l with
  | nil => rfl
  | cons a t =>
    rw [List.dropWhile_cons_of_neg]
    rw [h a rfl]
    exact Bool.false_ne_true

lemma exists_dropWhile_eq_append (p : Char → Bool) (l : List Char) :
    ∃ u, l = u ++ l.dropWhile p := by
  induction l with
  | nil => exact ⟨[], rfl⟩
  | cons c t ih =>
    by_cases hc : p c
    · obtain ⟨u, hu⟩ := ih
      refine ⟨c :: u, ?_⟩
      rw [List.dropWhile_cons_of_pos hc, List.cons_append, ← hu]
    · exact ⟨[], by rw [List.dropWhile_cons_of_neg hc, List.nil_append]⟩

lemma dropWhile_append_of_ne_nil {p : Char → Bool} {x : List Char}
    (h : x.dropWhile p ≠ []) (y : List Char) :
    (x ++ y).dropWhile p = x.dropWhile p ++ y := by
  induction x with
  | nil => exact absurd rfl h
  | cons a t ih =>
    by_cases ha : p a
    · rw [List.dropWhile_cons_of_pos ha] at h ⊢
      rw [List.cons_append, List.dropWhile_cons_of_pos ha]
      exact ih h
    · rw [List.cons_append, List.dropWhile_cons_of_neg ha,
        List.dropWhile_cons_of_neg ha, List.cons_append]

lemma head?_append_of_ne_nil {l : List Char} (h : l ≠ []) (l2 : List Char) :
    (l ++ l2).head? = l.head? := by
  cases l with
  | nil => exact absurd rfl h
  | cons a t => rfl

lemma head?_rstrip {x : List Char} (h : rstrip x ≠ []) : (rstrip x).head? = x.head? := by
  obtain ⟨u, hu⟩ := exists_dropWhile_eq_append Char.isWhitespace x.reverse
  have hx : x = rstrip x ++ u.reverse := by
    conv_lhs => rw [← List.reverse_reverse x, hu]
    rw [List.reverse_append]
    rfl
  conv_rhs => rw [hx]
  rw [head?_append_of_ne_nil h]

lemma getLast?_rstrip_not_ws {x : List Char} {c : Char}
    (h : (rstrip x).getLast? = some c) : c.isWhitespace = false := by
  unfold rstrip at h
  rw [List.getLast?_reverse] at h
  exact dropWhile_head_not _ _ h

/-- A non-empty string with no whitespace at either end. -/
def CleanStr (s : PyStr) : Prop :=
  s ≠ [] ∧ (∀ c, s.head? = some c → c.isWhitespace = false) ∧
    (∀ c, s.getLast? = some c → c.isWhitespace = false)

lemma cleanStr_pyStrip {s : PyStr} (h : pyStrip s ≠ []) : CleanStr (pyStrip s) := by
  refine ⟨h, ?_, ?_⟩
  · intro c hc
    unfold pyStrip at h hc
    rw [head?_rstrip h] at hc
    exact dropWhile_head_not _ _ hc
  · intro c hc
    exact getLast?_rstrip_not_ws hc

lemma rstrip_append_space {s : PyStr} (hs : CleanStr s) : rstrip (s ++ [' ']) = s := by
  unfold rstrip
  rw [List.reverse_append]
  show (List.dropWhile Char.isWhitespace (' ' :: s.reverse)).reverse = s
  rw [List.dropWhile_cons_of_pos rfl]
  rw [dropWhile_eq_self_of_head, List.reverse_reverse]
  intro c hc
  rw [List.head?_reverse] at hc
  exact hs.2.2 c hc

lemma rstrip_ne_nil_of_cleanStr {s : PyStr} (hs : CleanStr s) : rstrip s ≠ [] := by
  unfold rstrip
  intro hcon
  rw [List.reverse_eq_nil_iff] at hcon
  rw [dropWhile_eq_self_of_head, List.reverse_eq_nil_iff] at hcon
  · exact hs.1 hcon
  · intro c hc
    rw [List.head?_reverse] at hc
    exact hs.2.2 c hc

lemma rstrip_append_of_ne_nil {a b : List Char} (h : rstrip b ≠ []) :
    rstrip (a ++ b) = a ++ rstrip b := by
  unfold rstrip at h ⊢
  have hb : List.dropWhile Char.isWhitespace b.reverse ≠ [] := by
    intro hc
    exact h (by rw [hc]; rfl)
  rw [List.reverse_append, dropWhile_append_of_ne_nil hb, List.reverse_append,
    List.reverse_reverse]

/-- The buffer of the chunk accumulation loop: each accumulated sentence is
followed by one space, exactly the shape current_chunk takes in the
source. -/
def joinSpTrail : List PyStr → PyStr
  | [] => []
  | s :: t => s ++ ' ' :: joinSpTrail t

/-- Sentences joined by single spaces with no trailing space: the shape of a
chunk content built from whole sentences. -/
def joinSp : List PyStr → PyStr
  | [] => []
  | [s] => s
  | s :: s2 :: rest => s ++ ' ' :: joinSp (s2 :: rest)

lemma joinSpTrail_eq_nil_iff {l : List PyStr} : joinSpTrail l = [] ↔ l = [] := by
  cases l with
  | nil => simp [joinSpTrail]
  | cons s t => simp [joinSpTrail]

lemma joinSpTrail_append (l1 l2 : List PyStr) :
    joinSpTrail (l1 ++ l2) = joinSpTrail l1 ++ joinSpTrail l2 := by
  induction l1 with
  | nil => rfl
  | cons s t ih =>
    show s ++ ' ' :: joinSpTrail (t ++ l2) = (s ++ ' ' :: joinSpTrail t) ++ joinSpTrail l2
    rw [ih]
    simp [List.append_assoc]

lemma joinSp_ne_nil {l : List PyStr} (h : l ≠ []) (he : ∀ s ∈ l, s ≠ []) :
    joinSp l ≠ [] := by
  cases l with
  | nil => exact absurd rfl h
  | cons s t =>
    cases t with
    | nil => exact he s (List.mem_singleton.mpr rfl)
    | cons s2 t2 =>
      show s ++ ' ' :: joinSp (s2 :: t2) ≠ []
      simp

lemma joinSpTrail_length {l : List PyStr} (h : l ≠ []) :
    (joinSpTrail l).length = (joinSp l).length + 1 := by
  induction l with
  | nil => exact absurd rfl h
  | cons s t ih =>
    cases t with
    | nil => simp [joinSpTrail, joinSp]
    | cons s2 t2 =>
      have h2 : (joinSpTrail (s2 :: t2)).length = (joinSp (s2 :: t2)).length + 1 :=
        ih (List.cons_ne_nil s2 t2)
      show (s ++ ' ' :: joinSpTrail (s2 :: t2)).length =
        (s ++ ' ' :: joinSp (s2 :: t2)).length + 1
      simp only [List.length_append, List.length_cons, h2]
      omega

lemma joinSp_append_singleton (l : List PyStr) (x : PyStr) :
    joinSp (l ++ [x]) = if l = [] then x else joinSp l ++ ' ' :: x := by
  induction l with
  | nil => rfl
  | cons a t ih =>
    rw [if_neg (List.cons_ne_nil a t)]
    cases t with
    | nil => rfl
    | cons b t2 =>
      have h1 : joinSp ((a :: b :: t2) ++ [x]) = a ++ ' ' :: joinSp ((b :: t2) ++ [x]) := rfl
      have h2 : joinSp (a :: b :: t2) = a ++ ' ' :: joinSp (b :: t2) := rfl
      rw [h1, ih, if_neg (List.cons_ne_nil b t2), h2]
      simp [List.append_assoc]

lemma pyStrip_joinSpTrail {l : List PyStr} (hl : l ≠ []) (hc : ∀ s ∈ l, CleanStr s) :
    pyStrip (joinSpTrail l) = joinSp l := by
  have hlstrip : lstrip (joinSpTrail l) = joinSpTrail l := by
    cases l with
    | nil => exact absurd rfl hl
    | cons s t =>
      apply dropWhile_eq_self_of_head
      intro c hhead
      have hs := hc s (List.mem_cons_self s t)
      rw [show joinSpTrail (s :: t) = s ++ ' ' :: joinSpTrail t from rfl] at hhead
      rw [head?_append_of_ne_nil hs.1] at hhead
      exact hs.2.1 c hhead
  unfold pyStrip
  rw [hlstrip]
  clear hlstrip
  induction l with
  | nil => exact absurd rfl hl
  | cons s t ih =>
    cases t with
    | nil =>
      show rstrip (s ++ ' ' :: joinSpTrail []) = joinSp [s]
      exact rstrip_append_space (hc s (List.mem_cons_self s []))
    | cons s2 t2 =>
      have hrest : rstrip (joinSpTrail (s2 :: t2)) = joinSp (s2 :: t2) :=
        ih (List.cons_ne_nil s2 t2) (fun s3 hs3 => hc s3 (List.mem_cons_of_mem s hs3))
      have hne : rstrip (joinSpTrail (s2 :: t2)) ≠ [] := by
        rw [hrest]
        exact joinSp_ne_nil (List.cons_ne_nil s2 t2)
          (fun s3 hs3 => (hc s3 (List.mem_cons_of_mem s hs3)).1)
      show rstrip (s ++ ' ' :: joinSpTrail (s2 :: t2)) = joinSp (s :: s2 :: t2)
      rw [show s ++ ' ' :: joinSpTrail (s2 :: t2) = (s ++ [' ']) ++ joinSpTrail (s2 :: t2) by
        simp [List.append_assoc]]
      rw [rstrip_append_of_ne_nil hne, hrest]
      show (s ++ [' ']) ++ joinSp (s2 :: t2) = s ++ ' ' :: joinSp (s2 :: t2)
      simp [List.append_assoc]

lemma le_foldr_max (l : List Nat) (x : Nat) (h : x ∈ l) : x ≤ l.foldr max 0 := by
  induction l with
  | nil => cases h
  | cons a t ih =>
    rcases List.mem_cons.mp h with rfl | ht
    · exact le_max_left _ _
    · exact le_trans (ih ht) (le_max_right _ _)

/-- What the segmenter guarantees of every emitted chunk: its content is at
most 4000 characters plus one sentence long, and it is a space-join of whole
stripped input sentences (no sentence is ever cut). -/
def GoodChunk (S : List PyStr) (M : Nat) (c : DocumentChunk) : Prop :=
  c.content.length ≤ 4000 + M ∧
  ∃ l, l ≠ [] ∧ (∀ s ∈ l, ∃ s0 ∈ S, s = pyStrip s0) ∧ c.content = joinSp l

lemma cleanStr_of_bufInv {S : List PyStr} {l : List PyStr}
    (hl : ∀ s ∈ l, (∃ s0 ∈ S, s = pyStrip s0) ∧ s ≠ []) :
    ∀ s ∈ l, CleanStr s := by
  intro s hs
  obtain ⟨⟨s0, _, hse⟩, hne⟩ := hl s hs
  subst hse
  exact cleanStr_pyStrip hne

lemma emit_goodChunk {S : List PyStr} {M : Nat} {l : List PyStr} (fn : PyStr) (page : Int)
    (idx : Nat) (hl : ∀ s ∈ l, (∃ s0 ∈ S, s = pyStrip s0) ∧ s ≠ [])
    (hlen : (joinSp l).length ≤ max 4000 M) (hne : l ≠ []) :
    GoodChunk S M (mkChunk fn (pyStrip (joinSpTrail l)) page idx) := by
  have hstrip : pyStrip (joinSpTrail l) = joinSp l :=
    pyStrip_joinSpTrail hne (cleanStr_of_bufInv hl)
  refine ⟨?_, l, hne, fun s hs => (hl s hs).1, ?_⟩
  · show (pyStrip (joinSpTrail l)).length ≤ 4000 + M
    rw [hstrip]
    exact le_trans hlen (max_le (Nat.le_add_right 4000 M) (Nat.le_add_left M 4000))
  · exact hstrip

lemma buildChunks_good (S : List PyStr) (M : Nat)
    (hS : ∀ s ∈ S, (pyStrip s).length ≤ M) (fn : PyStr) (page : Int) :
    ∀ (sents : List PyStr) (l : List PyStr) (idx : Nat),
      (∀ s ∈ sents, s ∈ S) →
      (∀ s ∈ l, (∃ s0 ∈ S, s = pyStrip s0) ∧ s ≠ []) →
      (joinSp l).length ≤ max 4000 M →
      ∀ c ∈ buildChunks fn page sents (joinSpTrail l) idx, GoodChunk S M c := by
  intro sents
  induction sents with
  | nil =>
    intro l idx _ hl hlen c hc
    rw [buildChunks] at hc
    cases l with
    | nil =>
      rw [if_pos (show pyStrip (joinSpTrail []) = [] from rfl)] at hc
      cases hc
    | cons s t =>
      have hne : (s :: t : List PyStr) ≠ [] := List.cons_ne_nil s t
      have hstrip : pyStrip (joinSpTrail (s :: t)) = joinSp (s :: t) :=
        pyStrip_joinSpTrail hne (cleanStr_of_bufInv hl)
      have hnn : pyStrip (joinSpTrail (s :: t)) ≠ [] := by
        rw [hstrip]
        exact joinSp_ne_nil hne (fun s3 hs3 => (hl s3 hs3).2)
      rw [if_neg hnn] at hc
      have := List.mem_singleton.mp hc
      subst this
      exact emit_goodChunk fn page idx hl hlen hne
  | cons s rest ih =>
    intro l idx hsub hl hlen c hc
    have hsS : s ∈ S := hsub s (List.mem_cons_self s rest)
    have hsub2 : ∀ s2 ∈ rest, s2 ∈ S := fun s2 hs2 => hsub s2 (List.mem_cons_of_mem s hs2)
    simp only [buildChunks] at hc
    by_cases h1 : pyStrip s = []
    · rw [if_pos h1] at hc
      exact ih l idx hsub2 hl hlen c hc
    · rw [if_neg h1] at hc
      have hsingle : ∀ s2 ∈ [pyStrip s], (∃ s0 ∈ S, s2 = pyStrip s0) ∧ s2 ≠ [] := by
        intro s2 hs2
        have := List.mem_singleton.mp hs2
        subst this
        exact ⟨⟨s, hsS, rfl⟩, h1⟩
      have hsinglen : (joinSp [pyStrip s]).length ≤ max 4000 M :=
        le_trans (hS s hsS) (le_max_right 4000 M)
      by_cases h2 : 4000 < (joinSpTrail l).length + (pyStrip s).length
      · rw [if_pos h2] at hc
        by_cases h3 : joinSpTrail l = []
        · rw [if_pos h3] at hc
          have hcc : c ∈ buildChunks fn page rest (joinSpTrail [pyStrip s]) idx := hc
          exact ih [pyStrip s] idx hsub2 hsingle hsinglen c hcc
        · rw [if_neg h3] at hc
          have hlne : l ≠ [] := fun he => h3 (by rw [he]; rfl)
          rcases List.mem_cons.mp hc with rfl | hcr
          · exact emit_goodChunk fn page idx hl hlen hlne
          · have hcc : c ∈ buildChunks fn page rest (joinSpTrail [pyStrip s]) (idx + 1) := hcr
            exact ih [pyStrip s] (idx + 1) hsub2 hsingle hsinglen c hcc
      · rw [if_neg h2] at hc
        have hbuf : joinSpTrail l ++ pyStrip s ++ [' '] = joinSpTrail (l ++ [pyStrip s]) := by
          rw [joinSpTrail_append]
          simp [joinSpTrail]
        rw [hbuf] at hc
        have hext : ∀ s2 ∈ l ++ [pyStrip s], (∃ s0 ∈ S, s2 = pyStrip s0) ∧ s2 ≠ [] := by
          intro s2 hs2
          rcases List.mem_append.mp hs2 with hmem | hmem
          · exact hl s2 hmem
          · exact hsingle s2 hmem
        have hextlen : (joinSp (l ++ [pyStrip s])).length ≤ max 4000 M := by
          rw [joinSp_append_singleton]
          by_cases hle : l = []
          · rw [if_pos hle]
            exact le_trans (hS s hsS) (le_max_right 4000 M)
          · rw [if_neg hle]
            have hrel := joinSpTrail_length hle
            simp only [List.length_append, List.length_cons]
            have : (joinSpTrail l).length + (pyStrip s).length ≤ 4000 := Nat.le_of_not_lt h2
            rw [hrel] at this
            refine le_trans ?_ (le_max_left 4000 M)
            omega
        exact ih (l ++ [pyStrip s]) idx hsub2 hext hextlen c hc

lemma buildChunks_indices (fn : PyStr) (page : Int) :
    ∀ (sents : List PyStr) (cur : PyStr) (idx : Nat),
      (buildChunks fn page sents cur idx).map (fun c => c.chunk_index) =
        List.range' idx (buildChunks fn page sents cur idx).length := by
  intro sents
  induction sents with
  | nil =>
    intro cur idx
    rw [buildChunks]
    by_cases h : pyStrip cur = []
    · rw [if_pos h]
      rfl
    · rw [if_neg h]
      rfl
  | cons s rest ih =>
    intro cur idx
    simp only [buildChunks]
    by_cases h1 : pyStrip s = []
    · rw [if_pos h1]
      exact ih cur idx
    · rw [if_neg h1]
      by_cases h2 : 4000 < cur.length + (pyStrip s).length
      · rw [if_pos h2]
        by_cases h3 : cur = []
        · rw [if_pos h3]
          exact ih _ idx
        · rw [if_neg h3]
          rw [List.map_cons, ih _ (idx + 1), List.length_cons]
          rfl
      · rw [if_neg h2]
        exact ih _ idx

/-- C9: the positional indices of the chunks produced by one segmentation
call are exactly 0, 1, 2, ... in emission order: strictly increasing,
gap-free and starting at zero. -/
theorem C9_chunk_indices_gapfree (text filename : PyStr) :
    (chunk_document text filename).map (fun c => c.chunk_index) =
      List.range (chunk_document text filename).length := by
  rw [List.range_eq_range']
  exact buildChunks_indices filename (scanLines (text.splitOn '\n') 1 []).2
    (scanLines (text.splitOn '\n') 1 []).1 [] 0

/-- C7 amended: every chunk the segmenter emits is at most 4000 characters
(the hard-coded limit of the source, equal to the default configured chunk
size) plus one stripped sentence long, and its content is a space-join of
whole stripped input sentences, so no sentence is ever split across two
chunks. -/
theorem C7_chunk_bound_sentences_whole (text filename : PyStr) :
    ∀ c ∈ chunk_document text filename,
      c.content.length ≤ 4000 + maxSentLen text ∧
      ∃ l, l ≠ [] ∧ (∀ s ∈ l, ∃ s0 ∈ sentencesOf text, s = pyStrip s0) ∧
        c.content = joinSp l := by
  intro c hc
  have hS : ∀ s ∈ sentencesOf text, (pyStrip s).length ≤ maxSentLen text := by
    intro s hs
    exact le_foldr_max _ _ (List.mem_map.mpr ⟨s, hs, rfl⟩)
  have hmem : c ∈ buildChunks filename (scanLines (text.splitOn '\n') 1 []).2
      (sentencesOf text) (joinSpTrail []) 0 := hc
  exact buildChunks_good (sentencesOf text) (maxSentLen text) hS filename
    (scanLines (text.splitOn '\n') 1 []).2 (sentencesOf text) [] 0
    (fun _ hs => hs) (fun s hs => absurd hs (List.not_mem_nil s))
    (by simp [joinSp]) c hmem

/-- Settings with a non-default configured chunk size; the segmenter ignores
the configured value and uses its literal 4000. -/
def cexSettings : Settings := { chunk_size := 5 }

/-- C7 counterexample: with chunk_size configured to 5, the segmenter still
emits a 13-character chunk although the longest stripped sentence has 6
characters, so the produced chunk exceeds the configured maximum plus the
length of one trailing sentence; the 4000-character limit is a hard-coded
literal, not the configured value. -/
theorem C7_configured_bound_counterexample :
    (chunk_document "ab cd. ef gh.".toList "f.txt".toList).map
      (fun c => c.content.length) = [13] ∧
    cexSettings.chunk_size + maxSentLen "ab cd. ef gh.".toList < 13 := by
  constructor
  · rfl
  · decide

/-- The single chunk the segmenter produces for the C7 witness text. -/
def c7chunk : DocumentChunk :=
  { id := "f.txt_chunk_0".toList, content := "ab cd. ef gh.".toList,
    page_number := some 1, chunk_index := 0, embedding := none }

/-- Witness for the amended C7 at a concrete text. -/
theorem C7_chunk_bound_sentences_whole_witness :
    c7chunk ∈ chunk_document "ab cd. ef gh.".toList "f.txt".toList ∧
    (c7chunk.content.length ≤ 4000 + maxSentLen "ab cd. ef gh.".toList ∧
      ∃ l, l ≠ [] ∧
        (∀ s ∈ l, ∃ s0 ∈ sentencesOf "ab cd. ef gh.".toList, s = pyStrip s0) ∧
        c7chunk.content = joinSp l) := by
  have he : chunk_document "ab cd. ef gh.".toList "f.txt".toList = [c7chunk] := rfl
  have hm : c7chunk ∈ chunk_document "ab cd. ef gh.".toList "f.txt".toList := by
    rw [he]
    exact List.mem_singleton.mpr rfl
  exact ⟨hm, C7_chunk_bound_sentences_whole _ _ c7chunk hm⟩
